import Mathlib

/-!
Verification development for the `lineclamp` text-clamping widget.

The model is a shallow embedding of `src/LineClamp.js` (the most developed
revision): the class methods `apply`, `softClamp`, `hardClamp`, `shouldClamp`
and the helper `findBoundary` become Lean functions.  The browser layout
engine, which the code only queries (never models), is abstracted as an
oracle `Env` providing `measure` (the result of `calculateTextMetrics`),
`offsetHeight`, and the computed font size.  JS strings are `List Char`;
`style.fontSize` is `Option Int` (`none` models the empty string `""`,
`some v` models `"⟨v⟩px"`; two px strings are equal exactly when their
numbers are, and the computed style of a rendered element is never `""`,
so this string comparison is faithful).  Event dispatch becomes an explicit
list of events returned by each operation, and each call of
`calculateTextMetrics` is counted in a `measures` field.  The JS `while`
loops become fuel recursion with provably sufficient fuel; `Err.diverge`
marks runs on which the JS would loop forever, and `Err.config` models the
exception thrown by `shouldClamp` when neither bound is configured.
-/

/-- Custom events dispatched on the element: `lineclamp.softclamp`,
`lineclamp.hardclamp` and the generic `lineclamp.clamp`. -/
inductive Ev : Type where
  | softclamp
  | hardclamp
  | clamp
deriving DecidableEq, Repr

/-- Failure modes of the embedded code: `config` is the explicit
`shouldClamp` configuration exception, `diverge` marks an infinite JS loop
(fuel exhaustion in the model). -/
inductive Err : Type where
  | config
  | diverge
deriving DecidableEq, Repr

/-- Result of `calculateTextMetrics` as consumed by `shouldClamp`:
only `lineCount` and `textHeight` are read. -/
structure Metrics : Type where
  lineCount : Int
  textHeight : Int
deriving DecidableEq, Repr

/-- The mutable element state the clamp code reads and writes:
`textContent` and the inline `style.fontSize`. -/
structure Elem : Type where
  text : List Char
  fontPx : Option Int
deriving DecidableEq, Repr

/-- The browser as an oracle: layout metrics for a given element state,
the element's `offsetHeight`, and the computed font size in px (a rendered
element always has a numeric computed font size). -/
structure Env : Type where
  measure : Elem → Metrics
  offsetHeight : Elem → Int
  computedFont : Elem → Int

/-- The LineClamp instance configuration, immutable after construction. -/
structure Cfg : Type where
  originalWords : List (List Char)
  maxLines : Option Int
  maxHeight : Option Int
  useSoftClamp : Bool
  hardClampAsFallback : Bool
  minFontSize : Int
  maxFontSize : Int
  ellipsis : List Char

/-- Per-instance mutable state outside the element: the watch flag. -/
structure St : Type where
  elem : Elem
  watching : Bool
deriving DecidableEq, Repr

/-- Accumulated effects of one clamp operation: the element state, the
events dispatched so far (in order), and how many times
`calculateTextMetrics` ran. -/
structure Run : Type where
  elem : Elem
  events : List Ev
  measures : Nat
deriving DecidableEq, Repr

/-- The constructor's tokenizer `element.textContent.match(/\S+\s*/g)`:
maximal runs of non-whitespace characters, each keeping its trailing
whitespace; leading whitespace is unmatched and dropped. -/
def tokenizeGo : List Char → List Char → Bool → List (List Char)
  | [], curRev, _ => if curRev.isEmpty then [] else [curRev.reverse]
  | c :: rest, curRev, inTrail =>
    if c.isWhitespace then
      if curRev.isEmpty then tokenizeGo rest [] false
      else tokenizeGo rest (c :: curRev) true
    else
      if inTrail then curRev.reverse :: tokenizeGo rest [c] false
      else tokenizeGo rest (c :: curRev) false

/-- `tokenize s` models `s.match(/\S+\s*/g) || []`. -/
def tokenize (s : List Char) : List (List Char) := tokenizeGo s [] false

/-- `words.join("")` (used by `apply` to restore the snapshot). -/
def joinAll : List (List Char) → List Char
  | [] => []
  | w :: ws => w ++ joinAll ws

/-- `words.join(" ")` (used by `hardClamp` when building prefixes). -/
def joinSp : List (List Char) → List Char
  | [] => []
  | [w] => w
  | w :: ws => w ++ ' ' :: joinSp ws

/-- `Math.round((min + max) / 2)` for integer `min`, `max`: JS rounds
half toward positive infinity, which is `⌊(min + max + 1) / 2⌋`. -/
def jsRound (mn mx : Int) : Int := (mn + mx + 1) / 2

/-- Outcome of one `findBoundary` call: either the `while` loop exited
without invoking `done` (`exited`), or `done` was invoked — exactly once,
since the JS `break`s right after it — with the recorded `(cursor, min,
max)` triple (`called`).  `σ` is the state threaded through the stateful
`test`/`done` callbacks. -/
inductive FBR (σ : Type) : Type where
  | exited (s : σ)
  | called (cursor lo hi : Int) (s : σ)
deriving DecidableEq

/-- Final callback state of a `findBoundary` outcome. -/
def FBR.state {σ : Type} : FBR σ → σ
  | .exited s => s
  | .called _ _ _ s => s

/-- The body of `findBoundary`'s `while (max > min)` loop, one fuel unit
per iteration.  Mirrors the source: test the cursor, narrow the bracket on
the side of the test result, invoke `done` and break when the bracket
width is exactly 1, else move the cursor to the rounded midpoint. -/
def fbLoop {σ : Type} (test : Int → σ → Except Err (Bool × σ))
    (doneCb : Int → Int → Int → σ → Except Err σ) :
    Nat → Int → Int → Int → σ → Except Err (FBR σ)
  | 0, _, _, _, _ => .error .diverge
  | fuel + 1, mn, mx, cursor, s =>
    if mn < mx then
      match test cursor s with
      | .error e => .error e
      | .ok (b, s1) =>
        let mn2 := if b then mn else cursor
        let mx2 := if b then cursor else mx
        if mx2 - mn2 = 1 then
          match doneCb cursor mn2 mx2 s1 with
          | .error e => .error e
          | .ok s2 => .ok (.called cursor mn2 mx2 s2)
        else
          fbLoop test doneCb fuel mn2 mx2 (jsRound mn2 mx2) s1
    else
      .ok (.exited s)

/-- `findBoundary(min, max, test, done)`: the cursor starts at `max`.
The fuel `(max - min).toNat + 2` always suffices: after the first
iteration the cursor is strictly inside the bracket, so the bracket width
strictly decreases every iteration. -/
def findBoundary {σ : Type} (mn mx : Int) (test : Int → σ → Except Err (Bool × σ))
    (doneCb : Int → Int → Int → σ → Except Err σ) (s : σ) : Except Err (FBR σ) :=
  fbLoop test doneCb ((mx - mn).toNat + 2) mn mx mx s

/-- `shouldClamp()`: measure, then compare against whichever bounds are
configured; throw the configuration error when neither is. -/
def shouldClamp (env : Env) (cfg : Cfg) (e : Elem) : Except Err Bool :=
  let m := env.measure e
  match cfg.maxHeight, cfg.maxLines with
  | some mh, some ml => .ok (decide (m.textHeight > mh) || decide (m.lineCount > ml))
  | some mh, none => .ok (decide (m.textHeight > mh))
  | none, some ml => .ok (decide (m.lineCount > ml))
  | none, none => .error .config

/-- `shouldClamp` lifted to a `Run`, counting the text-metrics
measurement it performs. -/
def shouldClampRun (env : Env) (cfg : Cfg) (r : Run) : Except Err (Bool × Run) :=
  match shouldClamp env cfg r.elem with
  | .error e => .error e
  | .ok b => .ok (b, { r with measures := r.measures + 1 })

/-- The `test` closure of `hardClamp`: render the first `val` words joined
with `" "`, remember that string in the captured `currentText`, and report
`shouldClamp()`. -/
def hardClampTest (env : Env) (cfg : Cfg) (val : Int) (s : Run × List Char) :
    Except Err (Bool × (Run × List Char)) :=
  let t := joinSp (cfg.originalWords.take val.toNat)
  let r := { s.1 with elem := { s.1.elem with text := t } }
  match shouldClampRun env cfg r with
  | .error e => .error e
  | .ok (b, r1) => .ok (b, (r1, t))

/-- The `do … while (this.shouldClamp())` letter trim of `hardClamp`:
drop the last character, render with the ellipsis appended, repeat while
the text still overflows.  Diverges (in JS) when no truncation of the
start text fits; the fuel `cur.length + 1` reaches the empty string, after
which the loop state repeats forever. -/
def trimLoop (env : Env) (cfg : Cfg) : Nat → List Char → Run → Except Err (List Char × Run)
  | 0, _, _ => .error .diverge
  | fuel + 1, cur, r =>
    let cur1 := cur.dropLast
    let r1 := { r with elem := { r.elem with text := cur1 ++ cfg.ellipsis } }
    match shouldClampRun env cfg r1 with
    | .error e => .error e
    | .ok (true, r2) => trimLoop env cfg fuel cur1 r2
    | .ok (false, r2) => .ok (cur1, r2)

/-- The `done` closure of `hardClamp`: if the candidate is above the
passing bound, restart from the first `max` words; then letter-trim, then
dispatch `lineclamp.hardclamp` followed by `lineclamp.clamp`. -/
def hardClampDone (env : Env) (cfg : Cfg) (val mn mx : Int) (s : Run × List Char) :
    Except Err (Run × List Char) :=
  let cur := if mn < val then joinSp (cfg.originalWords.take mx.toNat) else s.2
  match trimLoop env cfg (cur.length + 1) cur s.1 with
  | .error e => .error e
  | .ok (cur1, r) => .ok ({ r with events := r.events ++ [Ev.hardclamp, Ev.clamp] }, cur1)

/-- `hardClamp(skipCheck)`: unless the check is skipped, only proceed when
`shouldClamp()` holds; then binary-search the word count over
`[1, originalWords.length]`. -/
def hardClamp (env : Env) (cfg : Cfg) (skipCheck : Bool) (e0 : Elem) : Except Err Run :=
  let init : Run := { elem := e0, events := [], measures := 0 }
  match (if skipCheck then .ok (true, init) else shouldClampRun env cfg init) with
  | .error e => .error e
  | .ok (proceed, r0) =>
    if proceed then
      match findBoundary 1 (cfg.originalWords.length : Int)
          (hardClampTest env cfg) (hardClampDone env cfg) (r0, []) with
      | .error e => .error e
      | .ok res => .ok res.state.1
    else
      .ok r0

/-- The `test` closure of `softClamp`: set the font size to `val`px and
report `shouldClamp()`, remembering its value in the captured
`shouldClamp` variable (third component). -/
def softClampTest (env : Env) (cfg : Cfg) (val : Int) (s : Run × Bool × Bool) :
    Except Err (Bool × (Run × Bool × Bool)) :=
  let r := { s.1 with elem := { s.1.elem with fontPx := some val } }
  match shouldClampRun env cfg r with
  | .error e => .error e
  | .ok (b, r1) => .ok (b, (r1, s.2.1, b))

/-- The `done` closure of `softClamp`: if the candidate is above the
passing bound, fall back to the passing bound and re-measure; record
`done = !shouldClamp` (second component). -/
def softClampDone (env : Env) (cfg : Cfg) (val mn _mx : Int) (s : Run × Bool × Bool) :
    Except Err (Run × Bool × Bool) :=
  if mn < val then
    let r := { s.1 with elem := { s.1.elem with fontPx := some mn } }
    match shouldClampRun env cfg r with
    | .error e => .error e
    | .ok (b, r1) => .ok (r1, !b, b)
  else
    .ok (s.1, !s.2.2, s.2.2)

/-- `softClamp()`: remember the computed start size, clear the inline
font size, binary-search the font size over `[minFontSize, maxFontSize]`;
dispatch `lineclamp.softclamp` when the inline font size string differs
from the computed start size string, escalate to `hardClamp(false)` when
the search did not establish a fit and the fallback is enabled, and
otherwise dispatch `lineclamp.clamp` when changed. -/
def softClamp (env : Env) (cfg : Cfg) (e0 : Elem) : Except Err Run :=
  let startSize := env.computedFont e0
  let e1 : Elem := { e0 with fontPx := none }
  match findBoundary cfg.minFontSize cfg.maxFontSize (softClampTest env cfg)
      (softClampDone env cfg) (({ elem := e1, events := [], measures := 0 } : Run), false, false) with
  | .error e => .error e
  | .ok res =>
    let r := res.state.1
    let doneFlag := res.state.2.1
    let changed : Bool := decide (r.elem.fontPx ≠ some startSize)
    let r1 := if changed then { r with events := r.events ++ [Ev.softclamp] } else r
    if !doneFlag && cfg.hardClampAsFallback then
      match hardClamp env cfg false r1.elem with
      | .error e => .error e
      | .ok r2 =>
        .ok { elem := r2.elem, events := r1.events ++ r2.events,
              measures := r1.measures + r2.measures }
    else if changed then
      .ok { r1 with events := r1.events ++ [Ev.clamp] }
    else
      .ok r1

/-- `apply()` (named `applyClamp` after the spec, since `apply` collides
with common Lean vocabulary): no-op when `offsetHeight` is zero; else
suspend watching, restore the token snapshot with `join("")`, soft or hard
clamp per configuration, and restore the watch flag. -/
def applyClamp (env : Env) (cfg : Cfg) (st : St) : Except Err (St × List Ev × Nat) :=
  if env.offsetHeight st.elem ≠ 0 then
    let prevWatching := st.watching
    let e1 : Elem := { st.elem with text := joinAll cfg.originalWords }
    match (if cfg.useSoftClamp then softClamp env cfg e1 else hardClamp env cfg true e1) with
    | .error e => .error e
    | .ok r =>
      .ok ({ elem := r.elem, watching := if prevWatching then true else false },
           r.events, r.measures)
  else
    .ok (st, [], 0)

/-- Pure-predicate instantiation of `findBoundary`'s `test`, counting how
many times the predicate is evaluated. -/
def pureTest (p : Int → Bool) : Int → Nat → Except Err (Bool × Nat) :=
  fun v n => .ok (p v, n + 1)

/-- Pure instantiation of `findBoundary`'s `done`: records nothing beyond
the `called` constructor itself. -/
def pureDone : Int → Int → Int → Nat → Except Err Nat := fun _ _ _ n => .ok n

/-- `findBoundary(min, max, p, done)` with a pure predicate `p`; the
result's `Nat` is the number of predicate evaluations performed. -/
def findBoundaryP (mn mx : Int) (p : Int → Bool) : Except Err (FBR Nat) :=
  findBoundary mn mx (pureTest p) pureDone 0

/-- Oracle for the C3 counterexample: every element measures 3 lines and
text height 5. -/
def env3 : Env :=
  { measure := fun _ => { lineCount := 3, textHeight := 5 },
    offsetHeight := fun _ => 1,
    computedFont := fun _ => 16 }

/-- Configuration for the C3 counterexample: both bounds set, with
`maxHeight = 10` not exceeded and `maxLines = 1` exceeded. -/
def cfg3 : Cfg :=
  { originalWords := tokenize ('a' :: 'b' :: []), maxLines := some 1, maxHeight := some 10,
    useSoftClamp := false, hardClampAsFallback := true,
    minFontSize := 1, maxFontSize := 16, ellipsis := '…' :: [] }

/-- Element for the C3 counterexample. -/
def elem3 : Elem := { text := 'a' :: 'b' :: [], fontPx := none }

/-- Claim C2: `shouldClamp()` throws the configuration error exactly when
both `maxLines` and `maxHeight` are unset; whenever at least one bound is
configured it returns a boolean and never throws, for every element and
every metrics oracle. -/
theorem C2_shouldClamp_config_error (env : Env) (cfg : Cfg) (e : Elem) :
    (shouldClamp env cfg e = .error Err.config ↔
      cfg.maxHeight = none ∧ cfg.maxLines = none) ∧
    ((cfg.maxHeight ≠ none ∨ cfg.maxLines ≠ none) →
      ∃ b, shouldClamp env cfg e = .ok b) := by
  cases hH : cfg.maxHeight <;> cases hL : cfg.maxLines <;>
    simp [shouldClamp, hH, hL]

/-- Witness for C2 at concrete inputs: with both bounds unset the error is
thrown, and with `cfg3`'s bounds a boolean is returned. -/
theorem C2_witness :
    shouldClamp env3
      { cfg3 with maxLines := none, maxHeight := none } elem3 = .error Err.config ∧
    ∃ b, shouldClamp env3 cfg3 elem3 = .ok b :=
  ⟨(C2_shouldClamp_config_error env3 _ elem3).1.mpr ⟨rfl, rfl⟩,
   (C2_shouldClamp_config_error env3 cfg3 elem3).2 (Or.inl (by decide))⟩

/-- Counterexample to claim C3: with `maxHeight = 10` and `maxLines = 1`
configured and metrics `(lineCount, textHeight) = (3, 5)`, the code
returns `true` although the text height does not exceed `maxHeight` —
the line-count bound does affect the result, so the height check does not
determine it alone. -/
theorem C3_counterexample :
    shouldClamp env3 cfg3 elem3 = .ok true ∧
    (env3.measure elem3).textHeight ≤ 10 ∧
    cfg3.maxHeight = some 10 ∧ cfg3.maxLines = some 1 := by
  refine ⟨rfl, by decide, rfl, rfl⟩

/-- Claim C3 (amended): when both bounds are configured, `shouldClamp()`
returns whether the text height exceeds `maxHeight` OR the line count
exceeds `maxLines`; the line-count bound is not ignored. -/
theorem C3_both_bounds_or (env : Env) (cfg : Cfg) (e : Elem) (mh ml : Int)
    (hH : cfg.maxHeight = some mh) (hL : cfg.maxLines = some ml) :
    shouldClamp env cfg e =
      .ok (decide ((env.measure e).textHeight > mh) ||
           decide ((env.measure e).lineCount > ml)) := by
  simp [shouldClamp, hH, hL]

/-- Witness for the amended C3 at a concrete input. -/
theorem C3_witness :
    shouldClamp env3 cfg3 elem3 =
      .ok (decide ((env3.measure elem3).textHeight > 10) ||
           decide ((env3.measure elem3).lineCount > 1)) :=
  C3_both_bounds_or env3 cfg3 elem3 10 1 rfl rfl

/-- Oracle for the C9 witness: the element is not rendered
(`offsetHeight = 0`). -/
def env9 : Env :=
  { measure := fun _ => { lineCount := 3, textHeight := 5 },
    offsetHeight := fun _ => 0,
    computedFont := fun _ => 16 }

/-- Instance state for the C9 witness, with an active watch flag. -/
def st9 : St := { elem := { text := 'a' :: 'b' :: [], fontPx := none }, watching := true }

/-- Claim C9: with zero `offsetHeight`, `apply()` is a complete no-op: no
measurement runs, the element and the watch flag are untouched, no events
are dispatched, and no error is raised. -/
theorem C9_zero_height_noop (env : Env) (cfg : Cfg) (st : St)
    (h : env.offsetHeight st.elem = 0) :
    applyClamp env cfg st = .ok (st, [], 0) := by
  simp [applyClamp, h]

/-- Witness for C9 at a concrete hidden element. -/
theorem C9_witness : applyClamp env9 cfg3 st9 = .ok (st9, [], 0) :=
  C9_zero_height_noop env9 cfg3 st9 rfl

/-- Unfolding lemma: out of fuel. -/
theorem fbLoop_zero {σ : Type} (test : Int → σ → Except Err (Bool × σ))
    (doneCb : Int → Int → Int → σ → Except Err σ) (mn mx cursor : Int) (s : σ) :
    fbLoop test doneCb 0 mn mx cursor s = .error .diverge := rfl

/-- Unfolding lemma: one iteration of the `while (max > min)` loop. -/
theorem fbLoop_succ {σ : Type} (test : Int → σ → Except Err (Bool × σ))
    (doneCb : Int → Int → Int → σ → Except Err σ) (fuel : Nat) (mn mx cursor : Int) (s : σ) :
    fbLoop test doneCb (fuel + 1) mn mx cursor s =
      if mn < mx then
        match test cursor s with
        | .error e => .error e
        | .ok (b, s1) =>
          let mn2 := if b then mn else cursor
          let mx2 := if b then cursor else mx
          if mx2 - mn2 = 1 then
            match doneCb cursor mn2 mx2 s1 with
            | .error e => .error e
            | .ok s2 => .ok (.called cursor mn2 mx2 s2)
          else
            fbLoop test doneCb fuel mn2 mx2 (jsRound mn2 mx2) s1
      else
        .ok (.exited s) := rfl

/-- Bracket invariant of the pure `findBoundary` search: as long as the
predicate is false at `min` and true at `max` and the cursor lies in
`(min, max]`, the loop ends with `done` invoked on a width-1 bracket whose
low end fails the predicate and whose high end passes it.  The fuel bound
`(max - min).toNat` plus one extra unit when the cursor still sits at the
top (the only iteration that may not shrink the bracket) suffices. -/
theorem fbP_called (p : Int → Bool) :
    ∀ fuel mn mx cursor n, p mn = false → p mx = true → mn < mx →
      mn < cursor → cursor ≤ mx →
      (mx - mn).toNat + (if cursor = mx then 1 else 0) ≤ fuel →
      ∃ c lo hi n1,
        fbLoop (pureTest p) pureDone fuel mn mx cursor n = .ok (.called c lo hi n1) ∧
        hi - lo = 1 ∧ p lo = false ∧ p hi = true := by
  intro fuel
  induction fuel with
  | zero =>
    intro mn mx cursor n _ _ h3 _ _ h6
    exfalso
    have h7 : 1 ≤ (mx - mn).toNat := by omega
    by_cases hc : cursor = mx
    · simp [hc] at h6
    · simp [hc] at h6; omega
  | succ fuel ih =>
    intro mn mx cursor n hmn hmx hlt hc1 hc2 hfuel
    rw [fbLoop_succ, if_pos hlt]
    simp only [pureTest]
    cases hp : p cursor with
    | true =>
      by_cases hd : cursor - mn = 1
      · refine ⟨cursor, mn, cursor, n + 1, ?_, hd, hmn, hp⟩
        simp [hd, pureDone]
      · have h2 : 2 ≤ cursor - mn := by omega
        have hmid1 : mn < jsRound mn cursor := by unfold jsRound; omega
        have hmid2 : jsRound mn cursor < cursor := by unfold jsRound; omega
        obtain ⟨c, lo, hi, n1, heq, hw, hlo, hhi⟩ :=
          ih mn cursor (jsRound mn cursor) (n + 1) hmn hp hc1 hmid1 (le_of_lt hmid2) (by
            rw [if_neg (ne_of_lt hmid2)]
            by_cases hcm : cursor = mx
            · rw [if_pos hcm] at hfuel; omega
            · rw [if_neg hcm] at hfuel; omega)
        refine ⟨c, lo, hi, n1, ?_, hw, hlo, hhi⟩
        simpa [hd] using heq
    | false =>
      have hcmx : cursor < mx := by
        rcases lt_or_eq_of_le hc2 with h | h
        · exact h
        · rw [h] at hp; rw [hmx] at hp; cases hp
      by_cases hd : mx - cursor = 1
      · refine ⟨cursor, cursor, mx, n + 1, ?_, hd, hp, hmx⟩
        simp [hd, pureDone]
      · have h2 : 2 ≤ mx - cursor := by omega
        have hmid1 : cursor < jsRound cursor mx := by unfold jsRound; omega
        have hmid2 : jsRound cursor mx < mx := by unfold jsRound; omega
        obtain ⟨c, lo, hi, n1, heq, hw, hlo, hhi⟩ :=
          ih cursor mx (jsRound cursor mx) (n + 1) hp hmx hcmx hmid1 (le_of_lt hmid2) (by
            rw [if_neg (ne_of_lt hmid2)]
            rw [if_neg (ne_of_lt hcmx)] at hfuel
            omega)
        refine ⟨c, lo, hi, n1, ?_, hw, hlo, hhi⟩
        simpa [hd] using heq

set_option linter.unusedVariables false in
/-- Claim C1: for every integer bracket `min < max` and every total
predicate that is monotone toward `max` on the bracket, false at `min` and
true at `max`, `findBoundary` invokes `done` exactly once (the `called`
outcome: the model invokes the callback and `break`s, as the source does),
handing it a bracket of width one with the predicate false at its low end
and true at its high end. -/
theorem C1_findBoundary_bracket (mn mx : Int) (p : Int → Bool)
    (hlt : mn < mx)
    (hmono : ∀ a b, mn ≤ a → a ≤ b → b ≤ mx → p a = true → p b = true)
    (hmn : p mn = false) (hmx : p mx = true) :
    ∃ c lo hi n, findBoundaryP mn mx p = .ok (.called c lo hi n) ∧
      hi - lo = 1 ∧ p lo = false ∧ p hi = true := by
  have h := fbP_called p ((mx - mn).toNat + 2) mn mx mx 0 hmn hmx hlt hlt (le_refl mx)
    (by rw [if_pos rfl]; omega)
  exact h

/-- Witness for C1: the threshold predicate `3 ≤ v` on `[0, 4]`; the
search ends with `done (3, 2, 3)`. -/
theorem C1_witness :
    ((0 : Int) < 4 ∧ (decide ((3:Int) ≤ 0) = false) ∧ (decide ((3:Int) ≤ 4) = true)) ∧
    ∃ c lo hi n, findBoundaryP 0 4 (fun v => decide (3 ≤ v)) = .ok (.called c lo hi n) ∧
      hi - lo = 1 ∧ (decide (3 ≤ lo) = false) ∧ (decide (3 ≤ hi) = true) :=
  ⟨by decide,
   C1_findBoundary_bracket 0 4 (fun v => decide (3 ≤ v)) (by decide)
     (fun a b _ hab _ hpa => by
       simp only [decide_eq_true_eq] at hpa ⊢
       omega)
     (by decide) (by decide)⟩

/-- Claim C10: `done` runs at most once per `findBoundary` call (the model
returns right after the `called` outcome, as the source `break`s); it runs
zero times — with zero predicate probes — when `min ≥ max`, and zero times
after a single probe when the predicate fails at the first probe, which is
the top of the range.  Consequently `softClamp` with
`minFontSize = maxFontSize` probes no font size, its `done` flag stays
false, and with `hardClampAsFallback` set it falls through to
`hardClamp(false)` on the cleared-font element, prefixing whatever events
that emits with the (spuriously fired) soft-clamp event. -/
theorem C10_degenerate_ranges :
    (∀ (mn mx : Int) (p : Int → Bool), mx ≤ mn →
      findBoundaryP mn mx p = .ok (.exited 0)) ∧
    (∀ (mn mx : Int) (p : Int → Bool), mn < mx → p mx = false →
      findBoundaryP mn mx p = .ok (.exited 1)) ∧
    (∀ (env : Env) (cfg : Cfg) (e : Elem),
      cfg.minFontSize = cfg.maxFontSize → cfg.hardClampAsFallback = true →
      softClamp env cfg e =
        match hardClamp env cfg false { e with fontPx := none } with
        | .error err => .error err
        | .ok r2 => .ok { elem := r2.elem, events := Ev.softclamp :: r2.events,
                          measures := r2.measures }) := by
  refine ⟨?_, ?_, ?_⟩
  · intro mn mx p h
    have hfuel : (mx - mn).toNat + 2 = 0 + 1 + 1 := by omega
    rw [findBoundaryP, findBoundary, hfuel, fbLoop_succ, if_neg (by omega)]
  · intro mn mx p hlt hp
    obtain ⟨k, hk⟩ : ∃ k, (mx - mn).toNat + 2 = k + 1 := ⟨(mx - mn).toNat + 1, rfl⟩
    rw [findBoundaryP, findBoundary, hk, fbLoop_succ, if_pos hlt]
    simp only [pureTest, hp, Bool.false_eq_true, if_false]
    rw [if_neg (by omega)]
    obtain ⟨k1, hk1⟩ : ∃ k1, k = k1 + 1 := ⟨(mx - mn).toNat, by omega⟩
    rw [hk1, fbLoop_succ, if_neg (by omega)]
  · intro env cfg e hmin hfb
    rw [softClamp, findBoundary, hmin]
    have hfuel : (cfg.maxFontSize - cfg.maxFontSize).toNat + 2 = 0 + 1 + 1 := by omega
    rw [hfuel, fbLoop_succ, if_neg (by omega)]
    simp only [FBR.state, hfb]
    simp only [show ((none : Option Int) = some (env.computedFont e)) = False from by simp,
      Bool.not_false, Bool.true_and, decide_not, if_false]
    cases h2 : hardClamp env cfg false { text := e.text, fontPx := none } with
    | error err => simp [h2]
    | ok r2 => simp [h2]

/-- Oracle for the C10 witness: everything fits. -/
def envW10 : Env :=
  { measure := fun _ => { lineCount := 1, textHeight := 0 },
    offsetHeight := fun _ => 1,
    computedFont := fun _ => 16 }

/-- Configuration for the C10 witness: an empty font-size range
(`minFontSize = maxFontSize`) with the hard-clamp fallback enabled. -/
def cfgW10 : Cfg :=
  { originalWords := tokenize ('h' :: 'i' :: []), maxLines := some 1, maxHeight := none,
    useSoftClamp := true, hardClampAsFallback := true,
    minFontSize := 9, maxFontSize := 9, ellipsis := '…' :: [] }

/-- Element for the C10 witness. -/
def elemW10 : Elem := { text := 'h' :: 'i' :: [], fontPx := none }

/-- Witness for C10: a degenerate range, a failing top probe, and the
`softClamp` fall-through at a concrete fitting element (where the inner
`hardClamp(false)` check fails, so only the spurious soft-clamp event is
emitted and one measurement is taken). -/
theorem C10_witness :
    findBoundaryP 5 3 (fun _ => true) = .ok (.exited 0) ∧
    findBoundaryP 1 4 (fun _ => false) = .ok (.exited 1) ∧
    softClamp envW10 cfgW10 elemW10 =
      .ok { elem := { text := 'h' :: 'i' :: [], fontPx := none },
            events := [Ev.softclamp], measures := 1 } :=
  ⟨C10_degenerate_ranges.1 5 3 _ (by decide),
   C10_degenerate_ranges.2.1 1 4 _ (by decide) rfl,
   by rw [C10_degenerate_ranges.2.2 envW10 cfgW10 elemW10 rfl rfl]; rfl⟩

/-- Unfolding lemma: out of fuel in the letter trim. -/
theorem trimLoop_zero (env : Env) (cfg : Cfg) (cur : List Char) (r : Run) :
    trimLoop env cfg 0 cur r = .error .diverge := rfl

/-- Unfolding lemma: one iteration of the `do … while` letter trim. -/
theorem trimLoop_succ (env : Env) (cfg : Cfg) (fuel : Nat) (cur : List Char) (r : Run) :
    trimLoop env cfg (fuel + 1) cur r =
      (match shouldClampRun env cfg
          { r with elem := { r.elem with text := cur.dropLast ++ cfg.ellipsis } } with
      | .error e => .error e
      | .ok (true, r2) => trimLoop env cfg fuel cur.dropLast r2
      | .ok (false, r2) => .ok (cur.dropLast, r2)) := rfl

/-- Frame facts about one counted `shouldClamp` call: the element is
untouched, no events are emitted, exactly one measurement is added, and the
boolean is the plain `shouldClamp` result. -/
theorem shouldClampRun_frame (env : Env) (cfg : Cfg) (r : Run) (b : Bool) (r1 : Run)
    (h : shouldClampRun env cfg r = .ok (b, r1)) :
    r1.elem = r.elem ∧ r1.events = r.events ∧ r1.measures = r.measures + 1 ∧
    shouldClamp env cfg r.elem = .ok b := by
  unfold shouldClampRun at h
  cases hs : shouldClamp env cfg r.elem with
  | error e => rw [hs] at h; cases h
  | ok b2 =>
    rw [hs] at h
    injection h with h2
    cases h2
    exact ⟨rfl, rfl, rfl, rfl⟩

/-- The letter trim never touches the font size and never emits events. -/
theorem trimLoop_frame (env : Env) (cfg : Cfg) :
    ∀ fuel cur r cur1 r1, trimLoop env cfg fuel cur r = .ok (cur1, r1) →
      r1.elem.fontPx = r.elem.fontPx ∧ r1.events = r.events := by
  intro fuel
  induction fuel with
  | zero => intro cur r cur1 r1 h; rw [trimLoop_zero] at h; cases h
  | succ fuel ih =>
    intro cur r cur1 r1 h
    rw [trimLoop_succ] at h
    cases hs : shouldClampRun env cfg
        { r with elem := { r.elem with text := cur.dropLast ++ cfg.ellipsis } } with
    | error e => rw [hs] at h; cases h
    | ok br =>
      obtain ⟨b, r2⟩ := br
      rw [hs] at h
      have hfr := shouldClampRun_frame env cfg _ b r2 hs
      cases b with
      | true =>
        obtain ⟨h1, h2⟩ := ih cur.dropLast r2 cur1 r1 h
        refine ⟨?_, ?_⟩
        · rw [h1, hfr.1]
        · rw [h2, hfr.2.1]
      | false =>
        injection h with h2
        cases h2
        exact ⟨by rw [hfr.1], hfr.2.1⟩

/-- Invariant propagation through the `findBoundary` loop: a predicate
preserved by `test` holds of the state at an `exited` outcome, and `done`'s
postcondition holds at a `called` outcome. -/
theorem fbLoop_frame {σ : Type} (P Q : σ → Prop)
    (test : Int → σ → Except Err (Bool × σ)) (doneCb : Int → Int → Int → σ → Except Err σ)
    (hT : ∀ v s b s1, test v s = .ok (b, s1) → P s → P s1)
    (hD : ∀ c lo hi s s1, doneCb c lo hi s = .ok s1 → P s → Q s1) :
    ∀ fuel mn mx cursor s res,
      fbLoop test doneCb fuel mn mx cursor s = .ok res → P s →
      (∀ s1, res = .exited s1 → P s1) ∧
      (∀ c lo hi s1, res = .called c lo hi s1 → Q s1) := by
  intro fuel
  induction fuel with
  | zero => intro mn mx cursor s res h; rw [fbLoop_zero] at h; cases h
  | succ fuel ih =>
    intro mn mx cursor s res h hP
    rw [fbLoop_succ] at h
    by_cases hlt : mn < mx
    · rw [if_pos hlt] at h
      cases ht : test cursor s with
      | error e => rw [ht] at h; cases h
      | ok bs =>
        obtain ⟨b, s1⟩ := bs
        rw [ht] at h
        dsimp only at h
        have hP1 : P s1 := hT cursor s b s1 ht hP
        by_cases hd : (if b then cursor else mx) - (if b then mn else cursor) = 1
        · rw [if_pos hd] at h
          cases hdn : doneCb cursor (if b then mn else cursor) (if b then cursor else mx) s1 with
          | error e => rw [hdn] at h; cases h
          | ok s2 =>
            rw [hdn] at h
            injection h with h2
            cases h2
            constructor
            · intro s3 h3
              cases h3
            · intro c lo hi s3 h3
              cases h3
              exact hD _ _ _ s1 s2 hdn hP1
        · rw [if_neg hd] at h
          exact ih _ _ _ _ _ h hP1
    · rw [if_neg hlt] at h
      injection h with h2
      cases h2
      constructor
      · intro s3 h3
        cases h3
        exact hP
      · intro c lo hi s3 h3
        cases h3

/-- The `hardClamp` `test` callback keeps the font size and emits nothing. -/
theorem hardClampTest_frame (env : Env) (cfg : Cfg) (fp : Option Int) :
    ∀ v s b s1, hardClampTest env cfg v s = .ok (b, s1) →
      (s.1.elem.fontPx = fp ∧ s.1.events = []) →
      (s1.1.elem.fontPx = fp ∧ s1.1.events = []) := by
  intro v s b s1 ht hP
  unfold hardClampTest at ht
  dsimp only at ht
  split at ht
  · cases ht
  · rename_i b2 r2 heq
    have hfr := shouldClampRun_frame env cfg _ b2 r2 heq
    injection ht with ht2
    injection ht2 with htb hts
    subst hts
    constructor
    · rw [hfr.1]; exact hP.1
    · rw [hfr.2.1]; exact hP.2

/-- The `hardClamp` `done` callback keeps the font size and emits exactly
the hard-clamp event followed by the generic clamp event. -/
theorem hardClampDone_frame (env : Env) (cfg : Cfg) (fp : Option Int) :
    ∀ c lo hi s s1, hardClampDone env cfg c lo hi s = .ok s1 →
      (s.1.elem.fontPx = fp ∧ s.1.events = []) →
      (s1.1.elem.fontPx = fp ∧ s1.1.events = [Ev.hardclamp, Ev.clamp]) := by
  intro c lo hi s s1 hdn hP
  unfold hardClampDone at hdn
  dsimp only at hdn
  split at hdn
  · cases hdn
  · rename_i cur1 r2 heq
    injection hdn with h2
    cases h2
    have hfr := trimLoop_frame env cfg _ _ _ _ _ heq
    constructor
    · rw [hfr.1]; exact hP.1
    · show r2.events ++ [Ev.hardclamp, Ev.clamp] = [Ev.hardclamp, Ev.clamp]
      rw [hfr.2, hP.2]
      rfl

/-- `hardClamp` never touches the font size, and emits either nothing or
exactly the hard-clamp event followed by the generic clamp event. -/
theorem hardClamp_frame (env : Env) (cfg : Cfg) (skip : Bool) (e0 : Elem) (r : Run)
    (h : hardClamp env cfg skip e0 = .ok r) :
    r.elem.fontPx = e0.fontPx ∧ (r.events = [] ∨ r.events = [Ev.hardclamp, Ev.clamp]) := by
  unfold hardClamp at h
  cases skip with
  | true =>
    simp only [reduceIte] at h
    split at h
    · cases h
    · rename_i res heq
      injection h with h2
      cases h2
      unfold findBoundary at heq
      have frame := fbLoop_frame
        (fun s : Run × List Char => s.1.elem.fontPx = e0.fontPx ∧ s.1.events = [])
        (fun s : Run × List Char =>
          s.1.elem.fontPx = e0.fontPx ∧ s.1.events = [Ev.hardclamp, Ev.clamp])
        _ _ (hardClampTest_frame env cfg e0.fontPx) (hardClampDone_frame env cfg e0.fontPx)
        _ _ _ _ _ res heq ⟨rfl, rfl⟩
      cases res with
      | exited s1 =>
        have hx := frame.1 s1 rfl
        exact ⟨hx.1, Or.inl hx.2⟩
      | called c lo hi s1 =>
        have hx := frame.2 c lo hi s1 rfl
        exact ⟨hx.1, Or.inr hx.2⟩
  | false =>
    simp only [reduceIte] at h
    split at h
    · cases h
    · rename_i b r0 heq
      have hfr := shouldClampRun_frame env cfg _ b r0 heq
      cases b with
      | false =>
        simp only [Bool.false_eq_true, if_false] at h
        injection h with h2
        cases h2
        exact ⟨by rw [hfr.1], Or.inl hfr.2.1⟩
      | true =>
        simp only [eq_self_iff_true, if_true] at h
        split at h
        · cases h
        · rename_i res heq2
          injection h with h2
          cases h2
          unfold findBoundary at heq2
          have frame := fbLoop_frame
            (fun s : Run × List Char => s.1.elem.fontPx = e0.fontPx ∧ s.1.events = [])
            (fun s : Run × List Char =>
              s.1.elem.fontPx = e0.fontPx ∧ s.1.events = [Ev.hardclamp, Ev.clamp])
            _ _ (hardClampTest_frame env cfg e0.fontPx) (hardClampDone_frame env cfg e0.fontPx)
            _ _ _ _ _ res heq2 ⟨by rw [hfr.1], hfr.2.1⟩
          cases res with
          | exited s1 =>
            have hx := frame.1 s1 rfl
            exact ⟨hx.1, Or.inl hx.2⟩
          | called c lo hi s1 =>
            have hx := frame.2 c lo hi s1 rfl
            exact ⟨hx.1, Or.inr hx.2⟩

/-- The `softClamp` `test` callback emits no events. -/
theorem softClampTest_frame (env : Env) (cfg : Cfg) :
    ∀ v s b s1, softClampTest env cfg v s = .ok (b, s1) →
      s.1.events = [] → s1.1.events = [] := by
  intro v s b s1 ht hP
  unfold softClampTest at ht
  dsimp only at ht
  split at ht
  · cases ht
  · rename_i b2 r2 heq
    have hfr := shouldClampRun_frame env cfg _ b2 r2 heq
    injection ht with ht2
    injection ht2 with htb hts
    subst hts
    show r2.events = []
    rw [hfr.2.1]
    exact hP

/-- The `softClamp` `done` callback emits no events. -/
theorem softClampDone_frame (env : Env) (cfg : Cfg) :
    ∀ c lo hi s s1, softClampDone env cfg c lo hi s = .ok s1 →
      s.1.events = [] → s1.1.events = [] := by
  intro c lo hi s s1 hdn hP
  unfold softClampDone at hdn
  dsimp only at hdn
  split at hdn
  · split at hdn
    · cases hdn
    · rename_i b2 r2 heq
      have hfr := shouldClampRun_frame env cfg _ b2 r2 heq
      injection hdn with h2
      subst h2
      show r2.events = []
      rw [hfr.2.1]
      exact hP
  · injection hdn with h2
    subst h2
    exact hP

/-- The events one `softClamp` call can emit, in order: nothing, only the
soft-clamp event, an escalated hard clamp's two events, soft-clamp then
generic clamp, or soft-clamp then the escalated hard clamp's two events. -/
theorem softClamp_events (env : Env) (cfg : Cfg) (e0 : Elem) (r : Run)
    (h : softClamp env cfg e0 = .ok r) :
    r.events = [] ∨ r.events = [Ev.softclamp] ∨ r.events = [Ev.hardclamp, Ev.clamp] ∨
    r.events = [Ev.softclamp, Ev.clamp] ∨
    r.events = [Ev.softclamp, Ev.hardclamp, Ev.clamp] := by
  unfold softClamp at h
  dsimp only at h
  split at h
  · cases h
  · rename_i res heq
    unfold findBoundary at heq
    have hev : res.state.1.events = [] := by
      have frame := fbLoop_frame
        (fun s : Run × Bool × Bool => s.1.events = [])
        (fun s : Run × Bool × Bool => s.1.events = [])
        _ _ (softClampTest_frame env cfg) (softClampDone_frame env cfg)
        _ _ _ _ _ res heq rfl
      cases res with
      | exited s1 => exact frame.1 s1 rfl
      | called c lo hi s1 => exact frame.2 c lo hi s1 rfl
    cases hch : decide (res.state.1.elem.fontPx ≠ some (env.computedFont e0)) with
    | true =>
      rw [hch] at h
      simp only [eq_self_iff_true, if_true] at h
      cases hdf : !res.state.2.1 && cfg.hardClampAsFallback with
      | true =>
        rw [hdf] at h
        simp only [eq_self_iff_true, if_true] at h
        split at h
        · cases h
        · rename_i r2 heq2
          injection h with h2
          subst h2
          have h2ev := (hardClamp_frame env cfg false _ r2 heq2).2
          show (res.state.1.events ++ [Ev.softclamp]) ++ r2.events = [] ∨ _ ∨ _ ∨ _ ∨ _
          rw [hev]
          cases h2ev with
          | inl he => rw [he]; right; left; rfl
          | inr he => rw [he]; right; right; right; right; rfl
      | false =>
        rw [hdf] at h
        simp only [Bool.false_eq_true, if_false, eq_self_iff_true, if_true] at h
        injection h with h2
        subst h2
        show (res.state.1.events ++ [Ev.softclamp]) ++ [Ev.clamp] = [] ∨ _ ∨ _ ∨ _ ∨ _
        rw [hev]
        right; right; right; left; rfl
    | false =>
      rw [hch] at h
      simp only [Bool.false_eq_true, if_false] at h
      cases hdf : !res.state.2.1 && cfg.hardClampAsFallback with
      | true =>
        rw [hdf] at h
        simp only [eq_self_iff_true, if_true] at h
        split at h
        · cases h
        · rename_i r2 heq2
          injection h with h2
          subst h2
          have h2ev := (hardClamp_frame env cfg false _ r2 heq2).2
          show res.state.1.events ++ r2.events = [] ∨ _ ∨ _ ∨ _ ∨ _
          rw [hev]
          cases h2ev with
          | inl he => rw [he]; left; rfl
          | inr he => rw [he]; right; right; left; rfl
      | false =>
        rw [hdf] at h
        simp only [Bool.false_eq_true, if_false] at h
        injection h with h2
        subst h2
        left
        exact hev

/-- Claim C5 (amended): the events one `apply()` call emits, in order.
Soft-clamp always precedes hard-clamp, hard-clamp always precedes the
generic clamp, and at most one generic clamp is emitted; but an invocation
may emit a soft-clamp notification with no generic clamp at all (the
`[softclamp]` shape), so "exactly one generic per clamping call" fails. -/
theorem C5_event_shapes (env : Env) (cfg : Cfg) (st : St) (st1 : St) (ev : List Ev) (n : Nat)
    (h : applyClamp env cfg st = .ok (st1, ev, n)) :
    ev = [] ∨ ev = [Ev.softclamp] ∨ ev = [Ev.hardclamp, Ev.clamp] ∨
    ev = [Ev.softclamp, Ev.clamp] ∨ ev = [Ev.softclamp, Ev.hardclamp, Ev.clamp] := by
  unfold applyClamp at h
  by_cases hoff : env.offsetHeight st.elem ≠ 0
  · rw [if_pos hoff] at h
    dsimp only at h
    cases husc : cfg.useSoftClamp with
    | true =>
      rw [husc] at h
      simp only [eq_self_iff_true, if_true] at h
      split at h
      · cases h
      · rename_i r heq
        injection h with h2
        injection h2 with h2a h2b
        injection h2b with h2b h2c
        subst h2b
        exact softClamp_events env cfg _ r heq
    | false =>
      rw [husc] at h
      simp only [Bool.false_eq_true, if_false] at h
      split at h
      · cases h
      · rename_i r heq
        injection h with h2
        injection h2 with h2a h2b
        injection h2b with h2b h2c
        subst h2b
        cases (hardClamp_frame env cfg true _ r heq).2 with
        | inl he => exact Or.inl he
        | inr he => exact Or.inr (Or.inr (Or.inl he))
  · rw [if_neg hoff] at h
    injection h with h2
    injection h2 with h2a h2b
    injection h2b with h2b h2c
    subst h2b
    exact Or.inl rfl

/-- Oracle for the C5 counterexample: everything fits, and the computed
start font size is 16px. -/
def env5 : Env :=
  { measure := fun _ => { lineCount := 1, textHeight := 0 },
    offsetHeight := fun _ => 1,
    computedFont := fun _ => 16 }

/-- Configuration for the C5 counterexample: soft clamping with
`maxFontSize = 12`, below the element's computed 16px. -/
def cfg5 : Cfg :=
  { originalWords := tokenize ('a' :: []), maxLines := some 1, maxHeight := none,
    useSoftClamp := true, hardClampAsFallback := true,
    minFontSize := 1, maxFontSize := 12, ellipsis := '…' :: [] }

/-- Instance state for the C5 counterexample. -/
def st5 : St := { elem := { text := 'a' :: [], fontPx := none }, watching := false }

/-- Counterexample to claim C5: this `apply()` call performs clamping (it
emits the soft-clamp notification after shrinking the font from 16px to
12px) yet emits zero generic clamp notifications, not exactly one. -/
theorem C5_counterexample :
    applyClamp env5 cfg5 st5 =
      .ok ({ elem := { text := 'a' :: [], fontPx := some 12 }, watching := false },
           [Ev.softclamp], 2) ∧
    ([Ev.softclamp] ≠ ([] : List Ev)) ∧ [Ev.softclamp].count Ev.clamp = 0 :=
  ⟨rfl, by decide, by decide⟩

/-- Witness for the amended C5 at the C5 scenario. -/
theorem C5_witness :
    [Ev.softclamp] = [] ∨ [Ev.softclamp] = [Ev.softclamp] ∨
    [Ev.softclamp] = [Ev.hardclamp, Ev.clamp] ∨
    [Ev.softclamp] = [Ev.softclamp, Ev.clamp] ∨
    [Ev.softclamp] = [Ev.softclamp, Ev.hardclamp, Ev.clamp] :=
  C5_event_shapes env5 cfg5 st5
    { elem := { text := 'a' :: [], fontPx := some 12 }, watching := false }
    [Ev.softclamp] 2 rfl

/-- Claim C6 (amended): with hard clamping configured, a second `apply()`
on a still-rendered element returns exactly the first call's result: the
same element state (text and font size, so the visible result is stable)
but also the same event list — the notifications are re-emitted, not
suppressed, whenever the first call emitted any. -/
theorem C6_repeat_apply (env : Env) (cfg : Cfg) (st st1 : St) (ev1 : List Ev) (n1 : Nat)
    (hSoft : cfg.useSoftClamp = false)
    (hOff0 : env.offsetHeight st.elem ≠ 0)
    (hOff1 : env.offsetHeight st1.elem ≠ 0)
    (h1 : applyClamp env cfg st = .ok (st1, ev1, n1)) :
    applyClamp env cfg st1 = .ok (st1, ev1, n1) := by
  unfold applyClamp at h1 ⊢
  rw [if_pos hOff0] at h1
  rw [if_pos hOff1]
  rw [hSoft] at h1 ⊢
  simp only [Bool.false_eq_true, if_false] at h1 ⊢
  split at h1
  · cases h1
  · rename_i r heq
    have hfp : r.elem.fontPx = st.elem.fontPx := (hardClamp_frame env cfg true _ r heq).1
    injection h1 with h2
    injection h2 with h2a h2b
    injection h2b with h2b h2c
    subst h2a
    subst h2b
    subst h2c
    rw [hfp, heq]
    cases hw : st.watching with
    | true => rfl
    | false => rfl

/-- Oracle for the C6 scenario: text fits exactly when it is at most 4
characters long (one line), and the element is always rendered. -/
def env6 : Env :=
  { measure := fun e => { lineCount := if e.text.length ≤ 4 then 1 else 2, textHeight := 0 },
    offsetHeight := fun _ => 1,
    computedFont := fun _ => 16 }

/-- Configuration for the C6 scenario: hard clamping of the two-token
snapshot of `"ab cd"` to one line. -/
def cfg6 : Cfg :=
  { originalWords := tokenize ('a' :: 'b' :: ' ' :: 'c' :: 'd' :: []),
    maxLines := some 1, maxHeight := none,
    useSoftClamp := false, hardClampAsFallback := true,
    minFontSize := 1, maxFontSize := 16, ellipsis := '…' :: [] }

/-- Instance state for the C6 scenario, before the first `apply()`. -/
def st6 : St :=
  { elem := { text := 'a' :: 'b' :: ' ' :: 'c' :: 'd' :: [], fontPx := none },
    watching := false }

/-- Element state after the first C6 `apply()`: truncated to `"ab …"`. -/
def st6b : St :=
  { elem := { text := 'a' :: 'b' :: ' ' :: '…' :: [], fontPx := none }, watching := false }

/-- Counterexample to claim C6: the first `apply()` achieves a fit by
truncating, emitting the hard-clamp and generic clamp events; the second
`apply()` with no intervening change leaves the element state identical
but emits the very same notifications again instead of none. -/
theorem C6_counterexample :
    applyClamp env6 cfg6 st6 = .ok (st6b, [Ev.hardclamp, Ev.clamp], 4) ∧
    applyClamp env6 cfg6 st6b = .ok (st6b, [Ev.hardclamp, Ev.clamp], 4) ∧
    ([Ev.hardclamp, Ev.clamp] : List Ev) ≠ [] :=
  ⟨rfl, rfl, by decide⟩

/-- Witness for the amended C6 at the C6 scenario. -/
theorem C6_witness : applyClamp env6 cfg6 st6b = .ok (st6b, [Ev.hardclamp, Ev.clamp], 4) :=
  C6_repeat_apply env6 cfg6 st6 st6b [Ev.hardclamp, Ev.clamp] 4 rfl
    (by decide) (by decide) rfl

/-- Oracle for the C7 scenario: text fits exactly when it is at most 3
characters long; the computed start font size is 16px. -/
def env7 : Env :=
  { measure := fun e => { lineCount := if e.text.length ≤ 3 then 1 else 2, textHeight := 0 },
    offsetHeight := fun _ => 1,
    computedFont := fun _ => 16 }

/-- Configuration for the C7 scenario: soft clamping with an empty usable
range (`minFontSize = maxFontSize = 16`) and the hard-clamp fallback. -/
def cfg7 : Cfg :=
  { originalWords := tokenize ('a' :: 'a' :: ' ' :: 'b' :: 'b' :: []),
    maxLines := some 1, maxHeight := none,
    useSoftClamp := true, hardClampAsFallback := true,
    minFontSize := 16, maxFontSize := 16, ellipsis := '…' :: [] }

/-- Instance state for the C7 scenario: the overflowing text `"aa bb"`. -/
def st7 : St :=
  { elem := { text := 'a' :: 'a' :: ' ' :: 'b' :: 'b' :: [], fontPx := none },
    watching := false }

/-- Claim C7, evaluated at its failing input: with `minFontSize =
maxFontSize`, `useSoftClamp` and `hardClampAsFallback`, the code emits
THE SOFT-CLAMP EVENT TOO — `[softclamp, hardclamp, clamp]` — although no
font size was applied (the inline size ends cleared, `none`).  The claim
(and the spec, and the intent documented by the `changed` guard) says the
soft-clamp notification must not fire when no size change is possible;
the code compares the cleared inline `style.fontSize` (`""`) against the
computed `"16px"` and wrongly reports a change. -/
theorem C7_spurious_softclamp_event :
    cfg7.minFontSize = cfg7.maxFontSize ∧ cfg7.useSoftClamp = true ∧
    cfg7.hardClampAsFallback = true ∧
    applyClamp env7 cfg7 st7 =
      .ok ({ elem := { text := 'a' :: 'a' :: '…' :: [], fontPx := none }, watching := false },
           [Ev.softclamp, Ev.hardclamp, Ev.clamp], 6) :=
  ⟨rfl, rfl, rfl, rfl⟩

/-- Computation of `hardClamp(skipCheck = true)` when the probed text
fits: with at most one token the search bracket `[1, length]` is empty and
nothing at all happens; with two or more tokens the first probe renders
all tokens joined with `" "`, measures once, finds it fits, and the search
exits without `done` — no events, no truncation, but the text has been
rewritten to the space-rejoined form. -/
theorem hardClamp_fit (env : Env) (cfg : Cfg) (e0 : Elem)
    (hFit : 2 ≤ cfg.originalWords.length →
      shouldClamp env cfg { text := joinSp cfg.originalWords, fontPx := e0.fontPx } = .ok false) :
    (cfg.originalWords.length ≤ 1 →
      hardClamp env cfg true e0 = .ok { elem := e0, events := [], measures := 0 }) ∧
    (2 ≤ cfg.originalWords.length →
      hardClamp env cfg true e0 =
        .ok { elem := { text := joinSp cfg.originalWords, fontPx := e0.fontPx },
              events := [], measures := 1 }) := by
  constructor
  · intro hL
    unfold hardClamp
    dsimp only
    rw [if_pos rfl]
    dsimp only
    rw [if_pos rfl]
    unfold findBoundary
    have hF : ((cfg.originalWords.length : Int) - 1).toNat + 2 = 0 + 1 + 1 := by omega
    rw [hF, fbLoop_succ,
      if_neg (by omega : ¬ (1 : Int) < (cfg.originalWords.length : Int))]
    rfl
  · intro hL
    have hsc := hFit hL
    unfold hardClamp
    dsimp only
    rw [if_pos rfl]
    dsimp only
    rw [if_pos rfl]
    unfold findBoundary
    obtain ⟨k, hk⟩ : ∃ k, ((cfg.originalWords.length : Int) - 1).toNat + 2 = (k + 1) + 1 :=
      ⟨((cfg.originalWords.length : Int) - 1).toNat, rfl⟩
    rw [hk, fbLoop_succ,
      if_pos (by omega : (1 : Int) < (cfg.originalWords.length : Int))]
    simp only [hardClampTest, shouldClampRun]
    rw [show ((cfg.originalWords.length : Int)).toNat = cfg.originalWords.length by omega,
      List.take_length, hsc]
    dsimp only
    simp only [Bool.false_eq_true, if_false]
    rw [if_neg (by omega :
      ¬ (cfg.originalWords.length : Int) - (cfg.originalWords.length : Int) = 1)]
    rw [fbLoop_succ, if_neg (by omega :
      ¬ (cfg.originalWords.length : Int) < (cfg.originalWords.length : Int))]
    rfl

/-- Claim C8 (amended): for a rendered element under hard-clamp-only
configuration whose (space-rejoined) snapshot fits, `apply()` emits no
notifications, keeps the font size and the watch flag, but rewrites the
text content to the rejoined snapshot: the token concatenation when there
are fewer than two tokens, else the tokens joined with `" "` — which can
differ from the original text by duplicated whitespace. -/
theorem C8_fit_noop (env : Env) (cfg : Cfg) (st : St)
    (hSoft : cfg.useSoftClamp = false)
    (hOff : env.offsetHeight st.elem ≠ 0)
    (hFit : 2 ≤ cfg.originalWords.length →
      shouldClamp env cfg
        { text := joinSp cfg.originalWords, fontPx := st.elem.fontPx } = .ok false) :
    ∃ st1 n, applyClamp env cfg st = .ok (st1, [], n) ∧
      st1.elem.fontPx = st.elem.fontPx ∧ st1.watching = st.watching ∧
      (st1.elem.text = joinAll cfg.originalWords ∨
       st1.elem.text = joinSp cfg.originalWords) := by
  have hc := hardClamp_fit env cfg
    { text := joinAll cfg.originalWords, fontPx := st.elem.fontPx } hFit
  unfold applyClamp
  rw [if_pos hOff, hSoft]
  simp only [Bool.false_eq_true, if_false]
  by_cases hL : 2 ≤ cfg.originalWords.length
  · rw [hc.2 hL]
    refine ⟨_, 1, rfl, rfl, ?_, Or.inr rfl⟩
    cases hw : st.watching
    · rfl
    · rfl
  · rw [hc.1 (by omega)]
    refine ⟨_, 0, rfl, rfl, ?_, Or.inl rfl⟩
    cases hw : st.watching
    · rfl
    · rfl

/-- Oracle for the C8 scenario: every element state fits. -/
def env8 : Env :=
  { measure := fun _ => { lineCount := 1, textHeight := 0 },
    offsetHeight := fun _ => 1,
    computedFont := fun _ => 16 }

/-- Configuration for the C8 scenario: hard clamping of the snapshot of
`"a b"` (two tokens, the first keeping its trailing space). -/
def cfg8 : Cfg :=
  { originalWords := tokenize ('a' :: ' ' :: 'b' :: []),
    maxLines := some 1, maxHeight := none,
    useSoftClamp := false, hardClampAsFallback := true,
    minFontSize := 1, maxFontSize := 16, ellipsis := '…' :: [] }

/-- Instance state for the C8 scenario: the fitting text `"a b"`. -/
def st8 : St :=
  { elem := { text := 'a' :: ' ' :: 'b' :: [], fontPx := none }, watching := false }

/-- Counterexample to claim C8: the element's text `"a b"` already fits
(every state fits under `env8`), yet `apply()` leaves the element with
text `"a  b"` — the probe joined the whitespace-keeping tokens with a
further `" "` — so the text content is NOT left unchanged (no events are
emitted, though). -/
theorem C8_counterexample :
    applyClamp env8 cfg8 st8 =
      .ok ({ elem := { text := 'a' :: ' ' :: ' ' :: 'b' :: [], fontPx := none },
             watching := false }, [], 1) ∧
    st8.elem.text = 'a' :: ' ' :: 'b' :: [] ∧
    ('a' :: ' ' :: ' ' :: 'b' :: [] : List Char) ≠ 'a' :: ' ' :: 'b' :: [] ∧
    cfg8.originalWords = tokenize st8.elem.text :=
  ⟨rfl, rfl, by decide, rfl⟩

/-- Witness for the amended C8 at the C8 scenario. -/
theorem C8_witness :
    ∃ st1 n, applyClamp env8 cfg8 st8 = .ok (st1, [], n) ∧
      st1.elem.fontPx = st8.elem.fontPx ∧ st1.watching = st8.watching ∧
      (st1.elem.text = joinAll cfg8.originalWords ∨
       st1.elem.text = joinSp cfg8.originalWords) :=
  C8_fit_noop env8 cfg8 st8 rfl (by decide) (fun _ => rfl)

/-- With only `maxLines` configured, `shouldClamp` is the line-count
comparison. -/
theorem shouldClamp_lines (env : Env) (cfg : Cfg) (N : Int)
    (hMH : cfg.maxHeight = none) (hML : cfg.maxLines = some N) (e : Elem) :
    shouldClamp env cfg e = .ok (decide ((env.measure e).lineCount > N)) := by
  simp [shouldClamp, hMH, hML]

/-- Joining a token prefix with `" "` yields a character prefix of joining
all tokens with `" "`. -/
theorem joinSp_take_prefix :
    ∀ (ws : List (List Char)) (j : Nat), ∃ m, joinSp (ws.take j) = (joinSp ws).take m := by
  intro ws
  induction ws with
  | nil => intro j; exact ⟨0, by simp [joinSp]⟩
  | cons w ws' ih =>
    intro j
    cases j with
    | zero => exact ⟨0, by simp [joinSp]⟩
    | succ j' =>
      cases ws' with
      | nil =>
        refine ⟨w.length, ?_⟩
        rw [List.take_succ_cons, List.take_nil]
        show w = w.take w.length
        rw [List.take_length]
      | cons x xs =>
        cases j' with
        | zero =>
          refine ⟨w.length, ?_⟩
          show joinSp [w] = (w ++ ' ' :: joinSp (x :: xs)).take w.length
          show w = (w ++ ' ' :: joinSp (x :: xs)).take w.length
          rw [List.take_left]
        | succ j2 =>
          obtain ⟨m, hm⟩ := ih (j2 + 1)
          refine ⟨w.length + (1 + m), ?_⟩
          rw [List.take_succ_cons]
          show w ++ ' ' :: joinSp ((x :: xs).take (j2 + 1)) =
            (w ++ ' ' :: joinSp (x :: xs)).take (w.length + (1 + m))
          rw [List.take_append, hm, Nat.add_comm 1 m, List.take_succ_cons]

/-- The letter trim terminates and establishes the fit whenever the
ellipsis alone fits (at the running font size, under a lines-only
configuration): it stops at the longest character prefix of the start
text whose rendering with the ellipsis appended fits, reaching the empty
prefix in the worst case. -/
theorem trimLoop_fit (env : Env) (cfg : Cfg) (N : Int) (fp : Option Int)
    (hMH : cfg.maxHeight = none) (hML : cfg.maxLines = some N)
    (hEll : ¬ (env.measure { text := cfg.ellipsis, fontPx := fp }).lineCount > N) :
    ∀ fuel cur r, r.elem.fontPx = fp → cur.length + 1 ≤ fuel →
      ∃ k r1, trimLoop env cfg fuel cur r = .ok (cur.take k, r1) ∧
        r1.elem.text = cur.take k ++ cfg.ellipsis ∧
        r1.elem.fontPx = fp ∧ r1.events = r.events ∧
        ¬ (env.measure r1.elem).lineCount > N := by
  intro fuel
  induction fuel with
  | zero => intro cur r _ hfl; omega
  | succ fuel ih =>
    intro cur r hfp hfl
    rw [trimLoop_succ]
    cases hs : shouldClampRun env cfg
        { r with elem := { r.elem with text := cur.dropLast ++ cfg.ellipsis } } with
    | error e =>
      exfalso
      unfold shouldClampRun at hs
      rw [shouldClamp_lines env cfg N hMH hML] at hs
      cases hs
    | ok br =>
      obtain ⟨b, r2⟩ := br
      have hfr := shouldClampRun_frame env cfg _ b r2 hs
      have hb : b = decide ((env.measure
          { text := cur.dropLast ++ cfg.ellipsis, fontPx := r.elem.fontPx }).lineCount > N) := by
        have h2 := hfr.2.2.2
        rw [shouldClamp_lines env cfg N hMH hML] at h2
        injection h2 with h3
        exact h3.symm
      cases b with
      | true =>
        have hcl : (env.measure
            { text := cur.dropLast ++ cfg.ellipsis, fontPx := r.elem.fontPx }).lineCount > N := by
          have := hb.symm
          simpa using this
        have hne : cur ≠ [] := by
          intro hnil
          apply hEll
          rw [hnil] at hcl
          rw [hfp] at hcl
          simpa using hcl
        have hlen : 1 ≤ cur.length := by
          cases cur
          · exact absurd rfl hne
          · simp
        have hfp2 : r2.elem.fontPx = fp := by
          rw [hfr.1]
          exact hfp
        have hfl2 : cur.dropLast.length + 1 ≤ fuel := by
          simp only [List.length_dropLast]
          omega
        obtain ⟨k, r1, heq, htext, hfp1, hev1, hfit⟩ := ih cur.dropLast r2 hfp2 hfl2
        refine ⟨min k (cur.length - 1), r1, ?_, ?_, hfp1, ?_, hfit⟩
        · show trimLoop env cfg fuel cur.dropLast r2 =
            Except.ok (cur.take (min k (cur.length - 1)), r1)
          rw [heq, List.dropLast_eq_take, List.take_take]
        · rw [htext, List.dropLast_eq_take, List.take_take]
        · rw [hev1, hfr.2.1]
      | false =>
        have hcl : ¬ (env.measure
            { text := cur.dropLast ++ cfg.ellipsis, fontPx := r.elem.fontPx }).lineCount > N := by
          have := hb.symm
          simpa using this
        refine ⟨cur.length - 1, r2, ?_, ?_, ?_, hfr.2.1, ?_⟩
        · show Except.ok (cur.dropLast, r2) = Except.ok (cur.take (cur.length - 1), r2)
          rw [← List.dropLast_eq_take]
        · rw [hfr.1, ← List.dropLast_eq_take]
        · rw [hfr.1]
          exact hfp
        · rw [hfr.1]
          exact hcl

/-- Specification of `hardClamp`'s `done` callback when the ellipsis alone
fits: whichever branch picks the trim start (the `max`-word prefix when the
candidate exceeds the passing bound, else the last tested prefix), the trim
ends on a character prefix of the space-rejoined token sequence with the
ellipsis appended, fitting, with the hard-clamp and generic clamp events
appended in that order. -/
theorem hardClampDone_fit (env : Env) (cfg : Cfg) (N : Int) (fp : Option Int)
    (hMH : cfg.maxHeight = none) (hML : cfg.maxLines = some N)
    (hEll : ¬ (env.measure { text := cfg.ellipsis, fontPx := fp }).lineCount > N) :
    ∀ (c lo hi : Int) (r : Run) (curT : List Char), r.elem.fontPx = fp →
      (lo < c ∨ curT = joinSp (cfg.originalWords.take c.toNat)) →
      ∃ r1 curT1,
        hardClampDone env cfg c lo hi (r, curT) = .ok (r1, curT1) ∧
        r1.elem.fontPx = fp ∧ r1.events = r.events ++ [Ev.hardclamp, Ev.clamp] ∧
        (∃ k, r1.elem.text = (joinSp cfg.originalWords).take k ++ cfg.ellipsis) ∧
        ¬ (env.measure r1.elem).lineCount > N := by
  intro c lo hi r curT hfp hcur
  unfold hardClampDone
  dsimp only
  by_cases hlo : lo < c
  · rw [if_pos hlo]
    obtain ⟨k, r1, heq, htext, hfp1, hev1, hfit⟩ :=
      trimLoop_fit env cfg N fp hMH hML hEll _ (joinSp (cfg.originalWords.take hi.toNat))
        r hfp (le_refl _)
    rw [heq]
    obtain ⟨m, hm⟩ := joinSp_take_prefix cfg.originalWords hi.toNat
    refine ⟨_, _, rfl, hfp1, ?_, ⟨min k m, ?_⟩, hfit⟩
    · show r1.events ++ [Ev.hardclamp, Ev.clamp] = r.events ++ [Ev.hardclamp, Ev.clamp]
      rw [hev1]
    · show r1.elem.text = (joinSp cfg.originalWords).take (min k m) ++ cfg.ellipsis
      rw [htext, hm, List.take_take]
  · rw [if_neg hlo]
    obtain rfl : curT = joinSp (cfg.originalWords.take c.toNat) := hcur.resolve_left hlo
    obtain ⟨k, r1, heq, htext, hfp1, hev1, hfit⟩ :=
      trimLoop_fit env cfg N fp hMH hML hEll _ (joinSp (cfg.originalWords.take c.toNat))
        r hfp (le_refl _)
    rw [heq]
    obtain ⟨m, hm⟩ := joinSp_take_prefix cfg.originalWords c.toNat
    refine ⟨_, _, rfl, hfp1, ?_, ⟨min k m, ?_⟩, hfit⟩
    · show r1.events ++ [Ev.hardclamp, Ev.clamp] = r.events ++ [Ev.hardclamp, Ev.clamp]
      rw [hev1]
    · show r1.elem.text = (joinSp cfg.originalWords).take (min k m) ++ cfg.ellipsis
      rw [htext, hm, List.take_take]

/-- Evaluation of `hardClamp`'s `test` callback under a lines-only
configuration. -/
theorem hardClampTest_eval (env : Env) (cfg : Cfg) (N : Int) (fp : Option Int)
    (hMH : cfg.maxHeight = none) (hML : cfg.maxLines = some N)
    (cursor : Int) (r : Run) (curT : List Char) (hfp : r.elem.fontPx = fp) :
    hardClampTest env cfg cursor (r, curT) =
      .ok (decide ((env.measure { text := joinSp (cfg.originalWords.take cursor.toNat), fontPx := fp }).lineCount > N),
        ({ elem := { text := joinSp (cfg.originalWords.take cursor.toNat), fontPx := fp },
           events := r.events, measures := r.measures + 1 },
         joinSp (cfg.originalWords.take cursor.toNat))) := by
  unfold hardClampTest shouldClampRun
  dsimp only
  rw [shouldClamp_lines env cfg N hMH hML]
  rw [hfp]

/-- The `findBoundary` word search of `hardClamp`, entered at a cursor
strictly inside the bracket, always ends in `done` and produces a fitting
ellipsis-truncated prefix of the space-rejoined token sequence, emitting
the hard-clamp and generic clamp events. -/
theorem hardFB_fit (env : Env) (cfg : Cfg) (N : Int) (fp : Option Int)
    (hMH : cfg.maxHeight = none) (hML : cfg.maxLines = some N)
    (hEll : ¬ (env.measure { text := cfg.ellipsis, fontPx := fp }).lineCount > N) :
    ∀ fuel (mn mx cursor : Int) (r : Run) (curT : List Char),
      mn < cursor → cursor < mx → r.elem.fontPx = fp →
      (mx - mn).toNat ≤ fuel →
      ∃ c lo hi r1 curT1,
        fbLoop (hardClampTest env cfg) (hardClampDone env cfg) fuel mn mx cursor (r, curT) =
          .ok (.called c lo hi (r1, curT1)) ∧
        r1.elem.fontPx = fp ∧
        r1.events = r.events ++ [Ev.hardclamp, Ev.clamp] ∧
        (∃ k, r1.elem.text = (joinSp cfg.originalWords).take k ++ cfg.ellipsis) ∧
        ¬ (env.measure r1.elem).lineCount > N := by
  intro fuel
  induction fuel with
  | zero => intro mn mx cursor r curT h1 h2 _ hfl; omega
  | succ fuel ih =>
    intro mn mx cursor r curT h1 h2 hfp hfl
    rw [fbLoop_succ, if_pos (by omega : mn < mx)]
    rw [hardClampTest_eval env cfg N fp hMH hML cursor r curT hfp]
    dsimp only
    by_cases hb : (env.measure { text := joinSp (cfg.originalWords.take cursor.toNat), fontPx := fp }).lineCount > N
    · rw [decide_eq_true hb]
      simp only [eq_self_iff_true, if_true]
      by_cases hw : cursor - mn = 1
      · rw [if_pos hw]
        obtain ⟨r1, curT1, hdone, hfp1, hev1, htext, hfit⟩ :=
          hardClampDone_fit env cfg N fp hMH hML hEll cursor mn cursor { elem := { text := joinSp (cfg.originalWords.take cursor.toNat), fontPx := fp }, events := r.events, measures := r.measures + 1 } (joinSp (cfg.originalWords.take cursor.toNat)) rfl (Or.inl h1)
        rw [hdone]
        refine ⟨cursor, mn, cursor, r1, curT1, rfl, hfp1, ?_, htext, hfit⟩
        rw [hev1]
      · rw [if_neg hw]
        have hmid1 : mn < jsRound mn cursor := by unfold jsRound; omega
        have hmid2 : jsRound mn cursor < cursor := by unfold jsRound; omega
        obtain ⟨c, lo, hi, r1, curT1, heq, hfp1, hev1, htext, hfit⟩ :=
          ih mn cursor (jsRound mn cursor) { elem := { text := joinSp (cfg.originalWords.take cursor.toNat), fontPx := fp }, events := r.events, measures := r.measures + 1 } (joinSp (cfg.originalWords.take cursor.toNat)) hmid1 hmid2 rfl (by omega)
        refine ⟨c, lo, hi, r1, curT1, heq, hfp1, ?_, htext, hfit⟩
        rw [hev1]
    · rw [decide_eq_false hb]
      simp only [Bool.false_eq_true, if_false]
      by_cases hw : mx - cursor = 1
      · rw [if_pos hw]
        obtain ⟨r1, curT1, hdone, hfp1, hev1, htext, hfit⟩ :=
          hardClampDone_fit env cfg N fp hMH hML hEll cursor cursor mx { elem := { text := joinSp (cfg.originalWords.take cursor.toNat), fontPx := fp }, events := r.events, measures := r.measures + 1 } (joinSp (cfg.originalWords.take cursor.toNat)) rfl (Or.inr rfl)
        rw [hdone]
        refine ⟨cursor, cursor, mx, r1, curT1, rfl, hfp1, ?_, htext, hfit⟩
        rw [hev1]
      · rw [if_neg hw]
        have hmid1 : cursor < jsRound cursor mx := by unfold jsRound; omega
        have hmid2 : jsRound cursor mx < mx := by unfold jsRound; omega
        obtain ⟨c, lo, hi, r1, curT1, heq, hfp1, hev1, htext, hfit⟩ :=
          ih cursor mx (jsRound cursor mx) { elem := { text := joinSp (cfg.originalWords.take cursor.toNat), fontPx := fp }, events := r.events, measures := r.measures + 1 } (joinSp (cfg.originalWords.take cursor.toNat)) hmid1 hmid2 rfl (by omega)
        refine ⟨c, lo, hi, r1, curT1, heq, hfp1, ?_, htext, hfit⟩
        rw [hev1]

/-- Claim C4 (amended): for a rendered element under hard-clamp-only,
lines-only configuration with at least two tokens, assuming the ellipsis
alone fits (which makes the trim terminate and implies the claim's
satisfiability), `apply()` succeeds, the fit predicate is false afterwards
(line count at most `maxLines`), the font size is untouched, and the final
text is either the space-rejoined token sequence (when that already fits)
or a character prefix of it with the ellipsis appended — a prefix of the
REJOINED sequence, not of the original text snapshot, because the
whitespace-keeping tokens are joined with a further `" "`. -/
theorem C4_hard_clamp_lines (env : Env) (cfg : Cfg) (st : St) (N : Int)
    (hSoft : cfg.useSoftClamp = false)
    (hMH : cfg.maxHeight = none) (hML : cfg.maxLines = some N)
    (hOff : env.offsetHeight st.elem ≠ 0)
    (hW : 2 ≤ cfg.originalWords.length)
    (hEll : ¬ (env.measure { text := cfg.ellipsis, fontPx := st.elem.fontPx }).lineCount > N) :
    ∃ st1 ev n, applyClamp env cfg st = .ok (st1, ev, n) ∧
      ¬ (env.measure st1.elem).lineCount > N ∧
      st1.elem.fontPx = st.elem.fontPx ∧
      (st1.elem.text = joinSp cfg.originalWords ∨
       ∃ k, st1.elem.text = (joinSp cfg.originalWords).take k ++ cfg.ellipsis) := by
  unfold applyClamp
  rw [if_pos hOff, hSoft]
  simp only [Bool.false_eq_true, if_false]
  unfold hardClamp
  dsimp only
  rw [if_pos rfl]
  dsimp only
  rw [if_pos rfl]
  unfold findBoundary
  obtain ⟨f, hf⟩ : ∃ f, ((cfg.originalWords.length : Int) - 1).toNat + 2 = f + 1 ∧
      f = ((cfg.originalWords.length : Int) - 1).toNat + 1 := ⟨_, rfl, rfl⟩
  rw [hf.1, fbLoop_succ,
    if_pos (by omega : (1 : Int) < (cfg.originalWords.length : Int))]
  rw [hardClampTest_eval env cfg N st.elem.fontPx hMH hML _ _ _ rfl]
  rw [show ((cfg.originalWords.length : Int)).toNat = cfg.originalWords.length by omega,
    List.take_length]
  dsimp only
  by_cases hb : (env.measure { text := joinSp cfg.originalWords, fontPx := st.elem.fontPx }).lineCount > N
  · rw [decide_eq_true hb]
    simp only [eq_self_iff_true, if_true]
    by_cases hw2 : (cfg.originalWords.length : Int) - 1 = 1
    · rw [if_pos hw2]
      obtain ⟨r1, curT1, hdone, hfp1, hev1, htext, hfit⟩ :=
        hardClampDone_fit env cfg N st.elem.fontPx hMH hML hEll
          (cfg.originalWords.length : Int) 1 (cfg.originalWords.length : Int)
          { elem := { text := joinSp cfg.originalWords, fontPx := st.elem.fontPx }, events := [], measures := 0 + 1 }
          (joinSp cfg.originalWords) rfl (Or.inl (by omega))
      rw [hdone]
      exact ⟨_, _, _, rfl, hfit, hfp1, Or.inr htext⟩
    · rw [if_neg hw2]
      have hmid1 : 1 < jsRound 1 (cfg.originalWords.length : Int) := by
        unfold jsRound; omega
      have hmid2 : jsRound 1 (cfg.originalWords.length : Int) < (cfg.originalWords.length : Int) := by
        unfold jsRound; omega
      obtain ⟨c, lo, hi, r1, curT1, heq, hfp1, hev1, htext, hfit⟩ :=
        hardFB_fit env cfg N st.elem.fontPx hMH hML hEll f 1 (cfg.originalWords.length : Int)
          (jsRound 1 (cfg.originalWords.length : Int))
          { elem := { text := joinSp cfg.originalWords, fontPx := st.elem.fontPx }, events := [], measures := 0 + 1 }
          (joinSp cfg.originalWords) hmid1 hmid2 rfl (by omega)
      rw [heq]
      exact ⟨_, _, _, rfl, hfit, hfp1, Or.inr htext⟩
  · rw [decide_eq_false hb]
    simp only [Bool.false_eq_true, if_false]
    rw [if_neg (by omega :
      ¬ (cfg.originalWords.length : Int) - (cfg.originalWords.length : Int) = 1)]
    obtain ⟨f2, hf2⟩ : ∃ f2, f = f2 + 1 := ⟨((cfg.originalWords.length : Int) - 1).toNat, by omega⟩
    rw [hf2, fbLoop_succ, if_neg (by omega :
      ¬ (cfg.originalWords.length : Int) < (cfg.originalWords.length : Int))]
    exact ⟨_, _, _, rfl, hb, rfl, Or.inl rfl⟩

/-- Decides the claim's conclusion shape "the displayed text is a prefix
of the snapshot with the ellipsis appended": some character prefix of
`snap` followed by `ell` equals `t`. -/
def prefixEllCheck (snap ell t : List Char) : Bool :=
  (List.range (snap.length + 1)).any fun k => snap.take k ++ ell == t

/-- Oracle for the C4 counterexample: text fits exactly when it is at
most 5 characters long (one line). -/
def env4c : Env :=
  { measure := fun e => { lineCount := if e.text.length ≤ 5 then 1 else 2, textHeight := 0 },
    offsetHeight := fun _ => 1,
    computedFont := fun _ => 16 }

/-- Configuration for the C4 counterexample: hard clamping of the
snapshot of `"ab cd"` to one line. -/
def cfg4c : Cfg :=
  { originalWords := tokenize ('a' :: 'b' :: ' ' :: 'c' :: 'd' :: []),
    maxLines := some 1, maxHeight := none,
    useSoftClamp := false, hardClampAsFallback := true,
    minFontSize := 1, maxFontSize := 16, ellipsis := '…' :: [] }

/-- Instance state for the C4 counterexample: text `"ab cd"`, which fits,
but whose space-rejoined probe `"ab  cd"` does not. -/
def st4c : St :=
  { elem := { text := 'a' :: 'b' :: ' ' :: 'c' :: 'd' :: [], fontPx := none },
    watching := false }

/-- Counterexample to claim C4: truncation occurs (the hard-clamp events
fire) and the final text is `"ab  …"` — a prefix of the space-rejoined
`"ab  cd"` plus ellipsis, but NOT of the original snapshot `"ab cd"`: no
prefix of the snapshot followed by the ellipsis equals it.  The claim's
satisfiability hypothesis holds (the one-token prefix `"ab "` plus
ellipsis fits). -/
theorem C4_counterexample :
    applyClamp env4c cfg4c st4c =
      .ok ({ elem := { text := 'a' :: 'b' :: ' ' :: ' ' :: '…' :: [], fontPx := none },
             watching := false },
           [Ev.hardclamp, Ev.clamp], 3) ∧
    (∃ j, j ≤ cfg4c.originalWords.length ∧
      shouldClamp env4c cfg4c
        { text := joinSp (cfg4c.originalWords.take j) ++ cfg4c.ellipsis, fontPx := none } =
        .ok false) ∧
    joinAll cfg4c.originalWords = st4c.elem.text ∧
    prefixEllCheck st4c.elem.text cfg4c.ellipsis
      ('a' :: 'b' :: ' ' :: ' ' :: '…' :: []) = false :=
  ⟨rfl, ⟨1, by decide, rfl⟩, rfl, by decide⟩

/-- Witness for the amended C4 at the C4 scenario. -/
theorem C4_witness :
    ∃ st1 ev n, applyClamp env4c cfg4c st4c = .ok (st1, ev, n) ∧
      ¬ (env4c.measure st1.elem).lineCount > 1 ∧
      st1.elem.fontPx = st4c.elem.fontPx ∧
      (st1.elem.text = joinSp cfg4c.originalWords ∨
       ∃ k, st1.elem.text = (joinSp cfg4c.originalWords).take k ++ cfg4c.ellipsis) :=
  C4_hard_clamp_lines env4c cfg4c st4c 1 rfl rfl rfl (by decide) (by decide) (by decide)
